import Mathlib

/-!
Verification development for the `awsf` repository (AWS fuzzy finder).

The repository has two Python source files:
* `src/awsf.py` — the query engine: loads a JSON resource cache, filters it
  by enabled services and an optional explicit service tag, and performs
  case-insensitive substring search with a "did you mean" suggestion
  fallback backed by `difflib.get_close_matches`.
* `scripts/populate_resources.py` — the collector: enumerates seven AWS
  services, normalizes each discovered item into a uniform record, merges
  the per-service dictionaries into one cache keyed by resource name, and
  serializes the cache to JSON.

The embedding below models Python dictionaries as association lists with
Python's assignment semantics (assigning to an existing key replaces the
value in place; assigning a fresh key appends), Python strings as Lean
`String`s (lowercasing agrees with Python on the ASCII names and search
terms this tool manipulates), and fallible upstream calls as `Except`
values supplied through explicit environment structures.
-/

namespace Awsf

/-- A JSON-style primitive value stored in a resource-record field.  The
records built by the collector only ever hold strings and integers
(`shard_count`, `item_count`). -/
inductive Prim where
  | str (s : String)
  | int (n : Int)
deriving DecidableEq, Repr

/-- A resource record: a Python dict from field name to primitive value,
in insertion order. -/
abbrev RecordV := List (String × Prim)

/-- A resource cache: a Python dict from resource name to record. -/
abbrev CacheV := List (String × RecordV)

/-- Python dict assignment `d[k] = v`: if the key is present its value is
replaced in place (keys are unique in every dict this development builds,
so replacing the first occurrence is replacing the only one), otherwise
the pair is appended.  Insertion order is preserved, as in Python. -/
def dinsert : List (String × α) → String → α → List (String × α)
  | [], k, v => [(k, v)]
  | x :: t, k, v => if x.1 == k then (k, v) :: t else x :: dinsert t k v

/-- Python dict lookup `d.get(k)` / `d[k]` as an `Option`. -/
def dlookup (d : List (String × α)) (k : String) : Option α :=
  (d.find? (fun e => e.1 == k)).map (·.2)

/-- Python `d.get(k, default)`. -/
def dget (d : List (String × α)) (k : String) (v₀ : α) : α :=
  (dlookup d k).getD v₀

/-- Assign every pair of `l`, in order, into `d`.  This is both the loop
`for item: d[name] = record` used by each collector fetcher and Python's
`d.update(other)` (which iterates the items of `other` in order). -/
def insertAll (d : List (String × α)) (l : List (String × α)) : List (String × α) :=
  l.foldl (fun acc e => dinsert acc e.1 e.2) d

/-- The keys of a dict, in order. -/
def keysOf (d : List (String × α)) : List String :=
  d.map (·.1)

/-- Python's `needle in hay` on character lists: contiguous substring test
(the empty needle is contained in everything). -/
def subList : List Char → List Char → Bool
  | needle, [] => needle.isEmpty
  | needle, c :: t => needle.isPrefixOf (c :: t) || subList needle t

/-- Python's `needle in hay` on strings. -/
def strContains (needle hay : String) : Bool :=
  subList needle.data hay.data

/-- Python `str.lower()`.  `Char.toLower` agrees with Python on the ASCII
service tags, resource names and search terms this tool manipulates. -/
def lowerStr (s : String) : String :=
  String.mk (s.data.map Char.toLower)

/-- Python `str.upper()` (same ASCII caveat as `lowerStr`). -/
def upperStr (s : String) : String :=
  String.mk (s.data.map Char.toUpper)

/-- Python's `<=` on strings, character lists compared by code point. -/
def charListLe : List Char → List Char → Bool
  | [], _ => true
  | _ :: _, [] => false
  | a :: as, b :: bs => if a = b then charListLe as bs else decide (a.toNat < b.toNat)

/-- Python's `<=` on strings. -/
def strLe (a b : String) : Bool :=
  charListLe a.data b.data

/-- Python truthiness of a primitive: the empty string and the integer 0
are falsy. -/
def primTruthy : Prim → Bool
  | .str s => !s.isEmpty
  | .int n => n != 0

/-- Rendering of a primitive inside an f-string. -/
def primDisplay : Prim → String
  | .str s => s
  | .int n => toString n

/-! ### Query engine (`src/awsf.py`) -/

/-- `SERVICE_CONFIG` from `awsf.py`, reduced to the `icon` and `name`
entries (the `color` entry is never used by the filter or display logic
modelled here). -/
def serviceConfig : List (String × String × String) :=
  [("lambda", "λ", "Lambda"),
   ("s3", "🪣", "S3"),
   ("sqs", "📬", "SQS"),
   ("kinesis", "🌊", "Kinesis"),
   ("dynamodb", "🗄️", "DynamoDB"),
   ("rds", "🗃️", "RDS"),
   ("apigateway", "🚪", "API Gateway")]

/-- `get_service_display` from `awsf.py`: icon and display name, with a
" Cluster" suffix exactly when the resource type is `"cluster"` (the
Python test `resource_type and resource_type in ['cluster']` holds exactly
for the non-empty string `"cluster"`). -/
def getServiceDisplay (service : String) (resourceType : String) : String :=
  let c := (dlookup serviceConfig service).getD ("❓", upperStr service)
  if resourceType == "cluster" then c.1 ++ " " ++ c.2 ++ " Cluster"
  else c.1 ++ " " ++ c.2

/-- `get_environment_indicator` from `awsf.py`: case-insensitive substring
markers tested in fixed precedence order. -/
def getEnvironmentIndicator (resourceName : String) : String :=
  let nameLower := lowerStr resourceName
  if ["prod", "production"].any (fun env => strContains env nameLower) then "🟢 PROD"
  else if ["stag", "staging", "stage"].any (fun env => strContains env nameLower) then "🟡 STAGE"
  else if ["dev", "development"].any (fun env => strContains env nameLower) then "🔵 DEV"
  else if ["test", "testing"].any (fun env => strContains env nameLower) then "🟣 TEST"
  else "⚪ OTHER"

/-- The environment-tag derivation as the specification words it: inspect
the lowercased name for the substring markers in the fixed precedence
order prod/production, then stag/staging/stage, then dev/development,
then test/testing, else OTHER; the first matching category wins. -/
def envIndicatorOfSpec (resourceName : String) : String :=
  let nl := lowerStr resourceName
  if strContains "prod" nl || strContains "production" nl then "🟢 PROD"
  else if strContains "stag" nl || strContains "staging" nl || strContains "stage" nl then "🟡 STAGE"
  else if strContains "dev" nl || strContains "development" nl then "🔵 DEV"
  else if strContains "test" nl || strContains "testing" nl then "🟣 TEST"
  else "⚪ OTHER"

/-- `resource.get('service', '')` restricted to string values (a
non-string value would make the subsequent Python `.lower()` call raise;
no collector-produced record has one). -/
def recService (r : RecordV) : String :=
  match dlookup r "service" with
  | some (.str s) => s
  | _ => ""

/-- `resource.get(k, default)` rendered as a string, as the line formatter
uses it. -/
def recGetStr (r : RecordV) (k : String) (v₀ : String) : String :=
  match dlookup r k with
  | some p => primDisplay p
  | none => v₀

/-- First stage of `filter_by_service`: keep the records whose lowercased
service tag is in `enabled_services`. -/
def filterByEnabled (enabled : List String) (resources : CacheV) : CacheV :=
  resources.filter (fun e => enabled.contains (lowerStr (recService e.2)))

/-- Second stage of `filter_by_service`: keep the records whose lowercased
service tag equals the lowercased explicit filter. -/
def filterByTag (t : String) (resources : CacheV) : CacheV :=
  resources.filter (fun e => lowerStr (recService e.2) == lowerStr t)

/-- `filter_by_service` from `awsf.py`: first intersect with the enabled
services, then, if an explicit filter is given, restrict to that tag. -/
def filterByService (enabled : List String) (resources : CacheV)
    (serviceFilter : Option String) : CacheV :=
  let fr := filterByEnabled enabled resources
  match serviceFilter with
  | some f => filterByTag f fr
  | none => fr

/-- The substring matching of `search_with_query`: a record matches iff
the lowercased query is a substring of the lowercased record name. -/
def searchMatches (resources : CacheV) (query : String) : List (String × RecordV) :=
  resources.filter (fun e => strContains (lowerStr query) (lowerStr e.1))

/-! ### `difflib.get_close_matches`

`search_with_query` delegates its suggestion fallback to the Python
standard library (`from difflib import get_close_matches`), called with
`n=3, cutoff=0.3`.  The standard library is not part of this repository;
the model below follows its documented and implemented semantics for the
inputs this tool can produce: the similarity ratio of two sequences is
`2*M/T` where `T` is the total length and `M` the total size of the
matching blocks found by repeatedly taking the longest matching block
(earliest in the first sequence, then earliest in the second, among the
maximal ones) and recursing on both sides.  Ratios are kept as exact
rationals (numerator/denominator pairs of naturals): the double-precision
arithmetic difflib uses can only disagree with the exact comparison for
sequences of astronomical length.  The junk/autojunk heuristics are not
modelled; autojunk only activates for sequences of length ≥ 200 and no
junk predicate is passed.  The block-sum recursion carries explicit fuel;
`totalLength` fuel always suffices because each recursive call strictly
shrinks the sequences. -/

/-- Length of the common prefix of two character lists. -/
def runLen : List Char → List Char → Nat
  | a :: as, b :: bs => if a = b then runLen as bs + 1 else 0
  | _, _ => 0

/-- `SequenceMatcher.find_longest_match` over whole sequences: the longest
matching contiguous block `(i, j, k)`, choosing among maximal blocks the
one with the smallest start in `a`, then the smallest start in `b`. -/
def findLongestMatch (a b : List Char) : Nat × Nat × Nat :=
  (List.range a.length).foldl (fun best i =>
    (List.range b.length).foldl (fun best j =>
      let k := runLen (a.drop i) (b.drop j)
      if k > best.2.2 then (i, j, k) else best) best) (0, 0, 0)

/-- Total size `M` of the matching blocks of `SequenceMatcher`
(`get_matching_blocks`): the longest match plus, recursively, the matching
blocks of the pieces to its left and to its right. -/
def matchTotal : Nat → List Char → List Char → Nat
  | 0, _, _ => 0
  | fuel + 1, a, b =>
    let m := findLongestMatch a b
    if m.2.2 = 0 then 0
    else
      matchTotal fuel (a.take m.1) (b.take m.2.1) + m.2.2 +
        matchTotal fuel (a.drop (m.1 + m.2.2)) (b.drop (m.2.1 + m.2.2))

/-- `SequenceMatcher.ratio()` as an exact rational `(numerator, denominator)`:
`2*M/T`, and `1` when both sequences are empty. -/
def simScore (a b : List Char) : Nat × Nat :=
  let t := a.length + b.length
  if t = 0 then (1, 1) else (2 * matchTotal t a b, t)

/-- `score ≥ num/den`, by cross multiplication (denominators are positive). -/
def scoreGe (x : Nat × Nat) (num den : Nat) : Bool :=
  x.1 * den ≥ num * x.2

/-- Strict comparison of two scores, by cross multiplication. -/
def scoreLt (x y : Nat × Nat) : Bool :=
  x.1 * y.2 < y.1 * x.2

/-- `x` sorts strictly before `y` in `heapq.nlargest`'s descending order
on `(score, word)` pairs: larger score first, ties broken by the larger
word (Python tuple comparison). -/
def candBefore (x y : (Nat × Nat) × String) : Bool :=
  scoreLt y.1 x.1 || (x.1.1 * y.1.2 == y.1.1 * x.1.2 && decide (y.2 < x.2))

/-- Insert into a descending-sorted list (stable). -/
def insertDesc (before : α → α → Bool) (x : α) : List α → List α
  | [] => [x]
  | y :: ys => if before x y then x :: y :: ys else y :: insertDesc before x ys

/-- Stable insertion sort into descending order. -/
def sortDesc (before : α → α → Bool) : List α → List α
  | [] => []
  | x :: xs => insertDesc before x (sortDesc before xs)

/-- `difflib.get_close_matches(word, possibilities, n, cutoff)`: keep the
possibilities whose ratio against `word` reaches the cutoff, order them
descending by `(score, word)` and return the first `n`.  Note that each
possibility is sequence `a` and `word` sequence `b`, as in the library. -/
def getCloseMatches (word : String) (possibilities : List String) (n : Nat)
    (cutNum cutDen : Nat) : List String :=
  let scored := possibilities.filterMap (fun x =>
    let sc := simScore x.data word.data
    if scoreGe sc cutNum cutDen then some (sc, x) else none)
  ((sortDesc candBefore scored).take n).map (·.2)

/-! ### Search outcomes (`search_with_query`, `prepare_resource_data`) -/

/-- The externally observable outcome of `search_with_query`: which
records reach the interactive matcher, what is opened, and which names
are surfaced as suggestions.  (The printed messages themselves are not
modelled.) -/
inductive SearchOutcome where
  /-- `load_aws_resources` produced an empty dict: return immediately. -/
  | noResources
  /-- Zero substring matches: report, and surface these suggestions
  (possibly none); nothing is opened and no matcher is spawned. -/
  | noMatch (suggestions : List String)
  /-- Exactly one match with a truthy `url`: open it directly. -/
  | opened (name : String) (url : Prim)
  /-- Exactly one match whose `url` is missing or falsy: report an error
  naming the record; nothing is opened and no matcher is spawned. -/
  | noUrl (name : String)
  /-- Several matches: hand exactly this match set to the interactive
  matcher (`run_fzf_for_matches`). -/
  | interactive (ms : List (String × RecordV))
deriving DecidableEq, Repr

/-- `search_with_query(query, service_filter)` from `awsf.py`, with the
settings read (`enabled_services`) passed explicitly.  Faithful to the
source: `filter_by_service` — and with it the enabled-services
intersection — runs only when an explicit service filter is given. -/
def searchWithQuery (enabled : List String) (resources : CacheV)
    (serviceFilter : Option String) (query : String) : SearchOutcome :=
  if resources.isEmpty then .noResources
  else
    let visible := match serviceFilter with
      | some f => filterByService enabled resources (some f)
      | none => resources
    match searchMatches visible query with
    | [] => .noMatch (getCloseMatches query (keysOf visible) 3 3 10)
    | [(name, r)] =>
      let url := dget r "url" (.str "")
      if primTruthy url then .opened name url else .noUrl name
    | ms => .interactive ms

/-- Insert into an ascending-sorted list of strings (stable). -/
def insertAsc (x : String) : List String → List String
  | [] => [x]
  | y :: ys => if strLe x y then x :: y :: ys else y :: insertAsc x ys

/-- Python `sorted` on strings: stable ascending sort in code-point
lexicographic order (which is Lean's `String` order). -/
def sortAsc : List String → List String
  | [] => []
  | x :: xs => insertAsc x (sortAsc xs)

/-- The `name | service | environment | url` line `prepare_resource_data`
builds for one record. -/
def formatLine (name : String) (r : RecordV) : String :=
  name ++ " | " ++
    getServiceDisplay (recGetStr r "service" "unknown") (recGetStr r "type" "unknown") ++
    " | " ++ getEnvironmentIndicator name ++
    " | " ++ primDisplay (dget r "url" (.str ""))

/-- `prepare_resource_data` from `awsf.py`: the sorted line set handed to
the interactive matcher.  Faithful to the source: filtering happens only
when an explicit service filter is given. -/
def prepareResourceData (enabled : List String) (resources : CacheV)
    (serviceFilter : Option String) : List String :=
  if resources.isEmpty then []
  else
    let visible := match serviceFilter with
      | some f => filterByService enabled resources (some f)
      | none => resources
    sortAsc (visible.map (fun e => formatLine e.1 e.2))

/-- `parse_search_query` from `awsf.py`: the first token, lowercased, is
taken as the service filter when it is a known service tag; the remaining
tokens join into the search term. -/
def parseSearchQuery (args : List String) : Option String × String :=
  match args with
  | [] => (none, "")
  | a :: rest =>
    let firstArg := lowerStr a
    if (keysOf serviceConfig).contains firstArg then
      (some firstArg, String.intercalate " " rest)
    else
      (none, String.intercalate " " args)

/-- The substring matches produced by a service-scoped query through
`main`: `main` returns before searching when the explicit service tag is
not enabled (lines 594–600), and otherwise `search_with_query` searches
`filter_by_service(resources, t)`. -/
def scopedQueryMatches (enabled : List String) (resources : CacheV)
    (t : String) (query : String) : List (String × RecordV) :=
  if enabled.contains t then
    searchMatches (filterByService enabled resources (some t)) query
  else []

/-! ### Collector (`scripts/populate_resources.py`)

Each fetcher receives the upstream enumeration outcome as an explicit
`Except` value: `.error ()` stands for the `ClientError` its
`try`/`except` catches, `.ok` for a valid response.  Required upstream
fields (the ones the Python code indexes with `[...]`) are plain fields of
the response structures — a response missing them would not be a valid
enumeration response; optional upstream fields (the ones accessed with
`.get(..., default)`) are `Option`s.  Upstream timestamps are carried as
their already-`isoformat`-ed strings. -/

/-- One entry of a `list_functions` page. -/
structure LambdaFunction where
  functionName : String
  functionArn : String
  runtime : Option String
  lastModified : Option String

/-- The Lambda console URL template of `fetch_lambda_functions`. -/
def lambdaUrl (region name : String) : String :=
  "https://" ++ region ++ ".console.aws.amazon.com/lambda/home?region=" ++ region ++
    "#/functions/" ++ name ++ "?tab=configuration"

/-- The record `fetch_lambda_functions` builds for one function. -/
def lambdaRecord (region : String) (f : LambdaFunction) : RecordV :=
  [("service", .str "lambda"), ("type", .str "function"),
   ("arn", .str f.functionArn),
   ("url", .str (lambdaUrl region f.functionName)),
   ("runtime", .str (f.runtime.getD "unknown")),
   ("last_modified", .str (f.lastModified.getD "")),
   ("region", .str region)]

/-- `fetch_lambda_functions`: on `ClientError` return the empty dict,
otherwise insert one record per function across all pages. -/
def fetchLambdaFunctions (region : String)
    (resp : Except Unit (List (List LambdaFunction))) : CacheV :=
  match resp with
  | .error _ => []
  | .ok pages =>
    insertAll [] (pages.flatten.map (fun f => (f.functionName, lambdaRecord region f)))

/-- One entry of a `list_buckets` response. -/
structure S3Bucket where
  name : String
  creationDate : Option String

/-- The S3 console URL template of `fetch_s3_buckets`. -/
def s3Url (region name : String) : String :=
  "https://s3.console.aws.amazon.com/s3/buckets/" ++ name ++ "?region=" ++ region

/-- The record `fetch_s3_buckets` builds for one bucket. -/
def s3Record (region : String) (b : S3Bucket) : RecordV :=
  [("service", .str "s3"), ("type", .str "bucket"),
   ("url", .str (s3Url region b.name)),
   ("creation_date", .str (b.creationDate.getD "")),
   ("region", .str region)]

/-- `fetch_s3_buckets` (not paginated). -/
def fetchS3Buckets (region : String) (resp : Except Unit (List S3Bucket)) : CacheV :=
  match resp with
  | .error _ => []
  | .ok buckets => insertAll [] (buckets.map (fun b => (b.name, s3Record region b)))

/-- `queue_url.split('/')[-1]`: the characters after the last `'/'` (the
whole string when it has no `'/'`). -/
def lastSegment (u : List Char) : List Char :=
  ((u.reverse.takeWhile (fun c => c ≠ '/')).reverse)

/-- `queue_url.replace('://', '%3A//')`: left-to-right, non-overlapping. -/
def sqsEscape : List Char → List Char
  | ':' :: '/' :: '/' :: rest => '%' :: '3' :: 'A' :: '/' :: '/' :: sqsEscape rest
  | c :: rest => c :: sqsEscape rest
  | [] => []

/-- The SQS console URL template of `fetch_sqs_queues`. -/
def sqsUrl (region queueUrl : String) : String :=
  "https://" ++ region ++ ".console.aws.amazon.com/sqs/v2/home?region=" ++ region ++
    "#/queues/" ++ String.mk (sqsEscape queueUrl.data)

/-- The record `fetch_sqs_queues` builds for one queue URL. -/
def sqsRecord (region queueUrl : String) : RecordV :=
  [("service", .str "sqs"), ("type", .str "queue"),
   ("url", .str (sqsUrl region queueUrl)),
   ("queue_url", .str queueUrl),
   ("region", .str region)]

/-- `fetch_sqs_queues` (the response is the `QueueUrls` list). -/
def fetchSqsQueues (region : String) (resp : Except Unit (List String)) : CacheV :=
  match resp with
  | .error _ => []
  | .ok queueUrls =>
    insertAll [] (queueUrls.map (fun u => (String.mk (lastSegment u.data), sqsRecord region u)))

/-- The fields of a `describe_stream` result the collector reads. -/
structure StreamDescription where
  streamArn : Option String
  streamStatus : Option String
  shards : Option (List String)

/-- One listed Kinesis stream, paired with the outcome of its
`describe_stream` call (`.error ()`: the per-item `ClientError` that makes
the collector skip the stream). -/
structure KinesisStream where
  streamName : String
  details : Except Unit StreamDescription

/-- The Kinesis console URL template of `fetch_kinesis_streams`. -/
def kinesisUrl (region name : String) : String :=
  "https://" ++ region ++ ".console.aws.amazon.com/kinesis/home?region=" ++ region ++
    "#/streams/details/" ++ name ++ "/monitoring"

/-- The record `fetch_kinesis_streams` builds for one described stream. -/
def kinesisRecord (region name : String) (info : StreamDescription) : RecordV :=
  [("service", .str "kinesis"), ("type", .str "stream"),
   ("url", .str (kinesisUrl region name)),
   ("arn", .str (info.streamArn.getD "")),
   ("status", .str (info.streamStatus.getD "unknown")),
   ("shard_count", .int ((info.shards.getD []).length : Int)),
   ("region", .str region)]

/-- `fetch_kinesis_streams`: streams whose `describe_stream` fails are
skipped silently; the others are inserted page by page. -/
def fetchKinesisStreams (region : String)
    (resp : Except Unit (List (List KinesisStream))) : CacheV :=
  match resp with
  | .error _ => []
  | .ok pages =>
    insertAll [] (pages.flatten.filterMap (fun s =>
      match s.details with
      | .error _ => none
      | .ok info => some (s.streamName, kinesisRecord region s.streamName info)))

/-- The fields of a `describe_table` result the collector reads. -/
structure TableDescription where
  tableArn : Option String
  tableStatus : Option String
  itemCount : Option Int

/-- One listed DynamoDB table, paired with its `describe_table` outcome. -/
structure DynamoTable where
  tableName : String
  details : Except Unit TableDescription

/-- The DynamoDB console URL template of `fetch_dynamodb_tables`. -/
def dynamoUrl (region name : String) : String :=
  "https://" ++ region ++ ".console.aws.amazon.com/dynamodbv2/home?region=" ++ region ++
    "#table?name=" ++ name

/-- The record `fetch_dynamodb_tables` builds for one described table. -/
def dynamoRecord (region name : String) (info : TableDescription) : RecordV :=
  [("service", .str "dynamodb"), ("type", .str "table"),
   ("url", .str (dynamoUrl region name)),
   ("arn", .str (info.tableArn.getD "")),
   ("status", .str (info.tableStatus.getD "unknown")),
   ("item_count", .int (info.itemCount.getD 0)),
   ("region", .str region)]

/-- `fetch_dynamodb_tables`: tables whose `describe_table` fails are
skipped silently. -/
def fetchDynamodbTables (region : String)
    (resp : Except Unit (List (List DynamoTable))) : CacheV :=
  match resp with
  | .error _ => []
  | .ok pages =>
    insertAll [] (pages.flatten.filterMap (fun t =>
      match t.details with
      | .error _ => none
      | .ok info => some (t.tableName, dynamoRecord region t.tableName info)))

/-- One entry of a `describe_db_instances` page. -/
structure DbInstance where
  dbInstanceIdentifier : String
  dbInstanceArn : Option String
  engine : Option String
  dbInstanceStatus : Option String

/-- One entry of a `describe_db_clusters` page. -/
structure DbCluster where
  dbClusterIdentifier : String
  dbClusterArn : Option String
  engine : Option String
  status : Option String

/-- The RDS console URL template, with the `is-cluster` flag. -/
def rdsUrl (region name : String) (isCluster : Bool) : String :=
  "https://" ++ region ++ ".console.aws.amazon.com/rds/home?region=" ++ region ++
    "#database:id=" ++ name ++ (if isCluster then ";is-cluster=true" else ";is-cluster=false")

/-- The record `fetch_rds_resources` builds for one DB instance. -/
def rdsInstanceRecord (region : String) (i : DbInstance) : RecordV :=
  [("service", .str "rds"), ("type", .str "instance"),
   ("url", .str (rdsUrl region i.dbInstanceIdentifier false)),
   ("arn", .str (i.dbInstanceArn.getD "")),
   ("engine", .str (i.engine.getD "unknown")),
   ("status", .str (i.dbInstanceStatus.getD "unknown")),
   ("region", .str region)]

/-- The record `fetch_rds_resources` builds for one DB cluster. -/
def rdsClusterRecord (region : String) (c : DbCluster) : RecordV :=
  [("service", .str "rds"), ("type", .str "cluster"),
   ("url", .str (rdsUrl region c.dbClusterIdentifier true)),
   ("arn", .str (c.dbClusterArn.getD "")),
   ("engine", .str (c.engine.getD "unknown")),
   ("status", .str (c.status.getD "unknown")),
   ("region", .str region)]

/-- The two independently guarded sections of `fetch_rds_resources`. -/
structure RdsResp where
  instancePages : Except Unit (List (List DbInstance))
  clusterPages : Except Unit (List (List DbCluster))

/-- `fetch_rds_resources`: instances and clusters are inserted into one
dict; each section has its own `try`/`except`, and the outer `Except`
models a `ClientError` before either section runs. -/
def fetchRdsResources (region : String) (resp : Except Unit RdsResp) : CacheV :=
  match resp with
  | .error _ => []
  | .ok r =>
    let afterInstances := match r.instancePages with
      | .error _ => ([] : CacheV)
      | .ok pages =>
        insertAll [] (pages.flatten.map (fun i => (i.dbInstanceIdentifier, rdsInstanceRecord region i)))
    match r.clusterPages with
    | .error _ => afterInstances
    | .ok pages =>
      insertAll afterInstances
        (pages.flatten.map (fun c => (c.dbClusterIdentifier, rdsClusterRecord region c)))

/-- One entry of a `get_rest_apis` response. -/
structure RestApi where
  name : String
  id : String
  description : Option String
  createdDate : Option String

/-- The API Gateway console URL template of `fetch_api_gateway_apis`:
it interpolates the API's id, not its name. -/
def apiGatewayUrl (region apiId : String) : String :=
  "https://" ++ region ++ ".console.aws.amazon.com/apigateway/home?region=" ++ region ++
    "#/apis/" ++ apiId

/-- The record `fetch_api_gateway_apis` builds for one API; the dict key
is the API's name. -/
def apiGatewayRecord (region : String) (a : RestApi) : RecordV :=
  [("service", .str "apigateway"), ("type", .str "rest_api"),
   ("url", .str (apiGatewayUrl region a.id)),
   ("api_id", .str a.id),
   ("description", .str (a.description.getD "")),
   ("created_date", .str (a.createdDate.getD "")),
   ("region", .str region)]

/-- `fetch_api_gateway_apis` (not paginated). -/
def fetchApiGatewayApis (region : String) (resp : Except Unit (List RestApi)) : CacheV :=
  match resp with
  | .error _ => []
  | .ok apis => insertAll [] (apis.map (fun a => (a.name, apiGatewayRecord region a)))

/-- The upstream enumeration outcomes of one collection run, one per
supported service. -/
structure CollectResponses where
  lambdaResp : Except Unit (List (List LambdaFunction))
  s3Resp : Except Unit (List S3Bucket)
  sqsResp : Except Unit (List String)
  kinesisResp : Except Unit (List (List KinesisStream))
  dynamoResp : Except Unit (List (List DynamoTable))
  rdsResp : Except Unit RdsResp
  apiGatewayResp : Except Unit (List RestApi)

/-- The `all_resources` dict built by `main`: starting from the empty
dict, `update` with each service's fetch result in the fixed order
lambda, s3, sqs, kinesis, dynamodb, rds, apigateway. -/
def collectAllResources (region : String) (env : CollectResponses) : CacheV :=
  let r1 := insertAll [] (fetchLambdaFunctions region env.lambdaResp)
  let r2 := insertAll r1 (fetchS3Buckets region env.s3Resp)
  let r3 := insertAll r2 (fetchSqsQueues region env.sqsResp)
  let r4 := insertAll r3 (fetchKinesisStreams region env.kinesisResp)
  let r5 := insertAll r4 (fetchDynamodbTables region env.dynamoResp)
  let r6 := insertAll r5 (fetchRdsResources region env.rdsResp)
  insertAll r6 (fetchApiGatewayApis region env.apiGatewayResp)

/-- The failure points of one run of the collector's `main`:
`sessionOk` — `get_session` returned a session (its `except` returns
`None`, upon which `main` returns 1); `credsOk` — the
`sts.get_caller_identity()` probe succeeded (its `except` returns 1);
`writeOk` — the cache file write succeeded (its `except` returns 1). -/
structure RunEnv where
  sessionOk : Bool
  credsOk : Bool
  responses : CollectResponses
  writeOk : Bool

/-- The process exit code of `python3 populate_resources.py`
(`sys.exit(main())`), as a function of the run environment. -/
def mainPopulateExit (env : RunEnv) : Int :=
  if !env.sessionOk then 1
  else if !env.credsOk then 1
  else if !env.writeOk then 1
  else 0

/-- The cache `main` writes to disk: present exactly when the run reaches
the write (session and credentials fine), and written only when the write
itself succeeds. -/
def mainPopulateCache (region : String) (env : RunEnv) : Option CacheV :=
  if !env.sessionOk then none
  else if !env.credsOk then none
  else if !env.writeOk then none
  else some (collectAllResources region env.responses)

/-! ### The cache file format

`main` serializes `all_resources` with `json.dump(..., indent=2,
default=str)` and `load_aws_resources` reads it back with `json.load`.
The cache document is modelled at the JSON document level: a top-level
object mapping resource names to record objects whose values are strings
and integers (every value the collector stores is already a JSON-native
string or int, so `default=str` never fires).  Whitespace/indentation is
not observable through `json.load`.  `json.load` materializes each JSON
object by inserting its pairs into a fresh dict in order, so a duplicated
key would keep the last value — `loadPairs` models exactly that. -/

/-- A JSON document of the shape the cache file uses. -/
inductive JValue where
  | jstr (s : String)
  | jint (n : Int)
  | jobj (fields : List (String × JValue))

/-- Serialization of one primitive field value. -/
def Prim.toJ : Prim → JValue
  | .str s => .jstr s
  | .int n => .jint n

/-- Deserialization of one primitive field value. -/
def jToPrim : JValue → Option Prim
  | .jstr s => some (.str s)
  | .jint n => some (.int n)
  | .jobj _ => none

/-- Serialization of one record to its JSON object. -/
def encodeRecJ (r : RecordV) : JValue :=
  .jobj (r.map (fun e => (e.1, Prim.toJ e.2)))

/-- Serialization of the whole cache to the JSON document `json.dump`
writes. -/
def encodeCacheJ (c : CacheV) : JValue :=
  .jobj (c.map (fun e => (e.1, encodeRecJ e.2)))

/-- `json.load`'s materialization of a JSON object's pairs as a dict:
inserted in order, duplicate keys keep the last value. -/
def loadPairs (l : List (String × JValue)) : List (String × JValue) :=
  insertAll [] l

/-- Map a fallible function over a list, failing on the first failure. -/
def mapOpt (f : α → Option β) : List α → Option (List β)
  | [] => some []
  | a :: t =>
    match f a with
    | none => none
    | some b =>
      match mapOpt f t with
      | none => none
      | some bs => some (b :: bs)

/-- Deserialization of one record object. -/
def decodeRecJ : JValue → Option RecordV
  | .jobj fields => mapOpt (fun e => (jToPrim e.2).map (fun p => (e.1, p))) (loadPairs fields)
  | _ => none

/-- Deserialization of the whole cache document, as `load_aws_resources`
sees it. -/
def decodeCacheJ : JValue → Option CacheV
  | .jobj entries => mapOpt (fun e => (decodeRecJ e.2).map (fun r => (e.1, r))) (loadPairs entries)
  | _ => none

/-- The record invariant of the specification: a non-empty service tag, a
non-empty resource type, and a console URL containing the configured
region and the record's identifier `ident`. -/
def GoodRecord (region ident : String) (r : RecordV) : Prop :=
  (∃ sv, dlookup r "service" = some (.str sv) ∧ sv ≠ "") ∧
  (∃ ty, dlookup r "type" = some (.str ty) ∧ ty ≠ "") ∧
  (∃ u, dlookup r "url" = some (.str u) ∧
    strContains region u = true ∧ strContains ident u = true)

/-- The value for key `k` in the dict fetched latest (in left-to-right
order) among `ds`, if any dict contains `k`. -/
def lastHit (ds : List (List (String × α))) (k : String) : Option α :=
  ds.foldl (fun acc d => (dlookup d k).orElse (fun _ => acc)) none

/-! ## Lemmas about the dictionary model -/

theorem mem_keysOf {d : List (String × α)} {k : String} :
    k ∈ keysOf d ↔ ∃ e ∈ d, e.1 = k := by
  simp [keysOf, List.mem_map]

theorem dlookup_nil (k : String) : dlookup ([] : List (String × α)) k = none := rfl

theorem dlookup_cons {x : String × α} {t : List (String × α)} {k : String} :
    dlookup (x :: t) k = if x.1 = k then some x.2 else dlookup t k := by
  by_cases h : x.1 = k <;> simp [dlookup, List.find?_cons, h]

theorem dlookup_eq_none_iff {d : List (String × α)} {k : String} :
    dlookup d k = none ↔ k ∉ keysOf d := by
  induction d with
  | nil => simp [dlookup_nil, keysOf]
  | cons x t ih =>
    rw [dlookup_cons]
    by_cases h : x.1 = k
    · simp [h, keysOf]
    · rw [if_neg h, ih]
      simp only [keysOf, List.map_cons, List.mem_cons, not_or]
      constructor
      · intro hnot
        exact ⟨fun hkx => h hkx.symm, by simpa [keysOf] using hnot⟩
      · intro hnot
        simpa [keysOf] using hnot.2

theorem dlookup_append (d₁ d₂ : List (String × α)) (k : String) :
    dlookup (d₁ ++ d₂) k = (dlookup d₁ k).orElse (fun _ => dlookup d₂ k) := by
  induction d₁ with
  | nil => simp [dlookup_nil, Option.orElse]
  | cons x t ih =>
    by_cases hx : x.1 = k <;>
      simp [dlookup_cons, hx, ih, Option.orElse]

theorem dlookup_dinsert (d : List (String × α)) (k : String) (v : α) (k' : String) :
    dlookup (dinsert d k v) k' = if k' = k then some v else dlookup d k' := by
  induction d with
  | nil =>
    by_cases hk : k' = k
    · simp [dinsert, dlookup_cons, hk]
    · have hk' : ¬k = k' := fun h => hk h.symm
      simp [dinsert, dlookup_cons, dlookup_nil, hk, hk']
  | cons x t ih =>
    by_cases hx : x.1 = k
    · by_cases hk : k' = k
      · simp [dinsert, hx, dlookup_cons, hk]
      · have hk' : ¬k = k' := fun h => hk h.symm
        simp [dinsert, hx, dlookup_cons, hk, hk']
    · by_cases hx' : x.1 = k'
      · have hk : ¬k' = k := fun h => hx (hx'.trans h)
        simp [dinsert, hx, dlookup_cons, hx', hk]
      · simp [dinsert, hx, dlookup_cons, hx', ih]

theorem mem_dinsert {d : List (String × α)} {k : String} {v : α} {e : String × α}
    (h : e ∈ dinsert d k v) : e ∈ d ∨ e = (k, v) := by
  induction d with
  | nil =>
    simp [dinsert] at h
    exact .inr h
  | cons x t ih =>
    by_cases hx : x.1 = k
    · simp only [dinsert, hx, beq_self_eq_true, if_pos] at h
      rcases List.mem_cons.mp h with h | h
      · exact .inr h
      · exact .inl (List.mem_cons_of_mem _ h)
    · rw [dinsert] at h
      rw [if_neg (by simpa using hx)] at h
      rcases List.mem_cons.mp h with h | h
      · exact .inl (h ▸ List.mem_cons_self _ _)
      · rcases ih h with h' | h'
        · exact .inl (List.mem_cons_of_mem _ h')
        · exact .inr h'

theorem mem_insertAll {l : List (String × α)} {d : List (String × α)} {e : String × α}
    (h : e ∈ insertAll d l) : e ∈ d ∨ e ∈ l := by
  induction l generalizing d with
  | nil => exact .inl h
  | cons x t ih =>
    obtain ⟨xk, xv⟩ := x
    rcases ih (d := dinsert d xk xv) h with h' | h'
    · rcases mem_dinsert h' with h'' | h''
      · exact .inl h''
      · exact .inr (h'' ▸ List.mem_cons_self _ _)
    · exact .inr (List.mem_cons_of_mem _ h')

theorem keysOf_dinsert (d : List (String × α)) (k : String) (v : α) :
    keysOf (dinsert d k v) = if k ∈ keysOf d then keysOf d else keysOf d ++ [k] := by
  induction d with
  | nil => simp [dinsert, keysOf]
  | cons x t ih =>
    by_cases hx : x.1 = k
    · simp [dinsert, hx, keysOf]
    · rw [dinsert, if_neg (by simpa using hx)]
      by_cases hm : k ∈ keysOf t
      · have : k ∈ keysOf (x :: t) := by simp [keysOf]; right; simpa [keysOf] using hm
        simp only [keysOf, List.map_cons] at *
        simp [ih, hm, hx, Ne.symm hx]
      · have : ¬k ∈ keysOf (x :: t) := by
          simp only [keysOf, List.map_cons, List.mem_cons]
          rintro (h | h)
          · exact hx h.symm
          · exact hm (by simpa [keysOf] using h)
        simp only [keysOf, List.map_cons] at *
        simp [ih, hm, hx, Ne.symm hx]

theorem nodup_keysOf_dinsert {d : List (String × α)} {k : String} {v : α}
    (h : (keysOf d).Nodup) : (keysOf (dinsert d k v)).Nodup := by
  rw [keysOf_dinsert]
  split
  · exact h
  · rename_i hmem
    simp [List.nodup_append, h, hmem]

theorem nodup_keysOf_insertAll {d : List (String × α)} (h : (keysOf d).Nodup)
    (l : List (String × α)) : (keysOf (insertAll d l)).Nodup := by
  induction l generalizing d with
  | nil => exact h
  | cons x t ih => exact ih (nodup_keysOf_dinsert h)

theorem nodup_keysOf_cons {x : String × α} {t : List (String × α)}
    (h : (keysOf (x :: t)).Nodup) : x.1 ∉ keysOf t ∧ (keysOf t).Nodup := by
  simp only [keysOf, List.map_cons, List.nodup_cons] at h
  exact ⟨fun hm => h.1 (by simpa [keysOf] using hm), by simpa [keysOf] using h.2⟩

theorem dlookup_insertAll (d : List (String × α)) {l : List (String × α)}
    (hl : (keysOf l).Nodup) (k : String) :
    dlookup (insertAll d l) k = (dlookup l k).orElse (fun _ => dlookup d k) := by
  induction l generalizing d with
  | nil => simp [insertAll, dlookup_nil, Option.orElse]
  | cons x t ih =>
    obtain ⟨hxk, ht⟩ := nodup_keysOf_cons hl
    show dlookup (insertAll (dinsert d x.1 x.2) t) k = _
    rw [ih _ ht, dlookup_cons, dlookup_dinsert]
    by_cases hk : k = x.1
    · subst hk
      rw [dlookup_eq_none_iff.mpr hxk]
      simp [Option.orElse]
    · rw [if_neg hk, if_neg (fun h => hk (Eq.symm h))]

theorem dinsert_eq_append {d : List (String × α)} {k : String} {v : α}
    (h : k ∉ keysOf d) : dinsert d k v = d ++ [(k, v)] := by
  induction d with
  | nil => simp [dinsert]
  | cons x t ih =>
    have hx : ¬x.1 = k := by
      intro hx
      exact h (by simp [keysOf, hx])
    rw [dinsert, if_neg (by simpa using hx), ih (fun hm => h (by simp [keysOf]; right; simpa [keysOf] using hm))]
    simp

theorem subList_iff_infix {x h : List Char} : subList x h = true ↔ x <:+: h := by
  induction h with
  | nil => simp [subList, List.isEmpty_iff, List.infix_nil]
  | cons c t ih =>
    simp [subList, List.isPrefixOf_iff_prefix, ih, List.infix_cons_iff]

theorem strContains_parts (a x b : String) : strContains x (a ++ x ++ b) = true := by
  refine subList_iff_infix.mpr ⟨a.data, b.data, ?_⟩
  simp [String.data_append]

theorem strContains_of_eq {x hay : String} (a b : String) (h : hay = a ++ x ++ b) :
    strContains x hay = true := by
  rw [h]
  exact strContains_parts a x b

theorem strContains_of_eq_suffix {x hay : String} (a : String) (h : hay = a ++ x) :
    strContains x hay = true := by
  rw [h]
  refine subList_iff_infix.mpr ⟨a.data, [], ?_⟩
  simp [String.data_append]

theorem insertAll_eq_append {d : List (String × α)} {l : List (String × α)}
    (hl : (keysOf l).Nodup) (hdisj : ∀ k ∈ keysOf l, k ∉ keysOf d) :
    insertAll d l = d ++ l := by
  induction l generalizing d with
  | nil => simp [insertAll]
  | cons x t ih =>
    obtain ⟨hxt, ht⟩ := nodup_keysOf_cons hl
    have hxd : x.1 ∉ keysOf d := hdisj x.1 (by simp [keysOf])
    have hstep : dinsert d x.1 x.2 = d ++ [x] := by
      rw [dinsert_eq_append hxd]
    show insertAll (dinsert d x.1 x.2) t = _
    rw [hstep, ih ht ?_]
    · simp
    · intro k hk
      simp only [keysOf, List.map_append, List.map_cons, List.map_nil] at *
      intro hmem
      rcases List.mem_append.mp hmem with h | h
      · exact hdisj k (by simp [hk]) h
      · simp at h
        exact hxt (h ▸ hk)

/-! ## Claim theorems -/

/-- C4: for every record name, the environment tag is derived
case-insensitively by substring tests in the fixed precedence order
prod/production → PROD, else stag/staging/stage → STAGE, else
dev/development → DEV, else test/testing → TEST, else OTHER — i.e.
`get_environment_indicator` computes exactly the specification's decision
tree — and in particular `"prod-test-runner"`, whose name contains both
"prod" and "test", resolves to PROD, never TEST. -/
theorem environment_indicator_precedence :
    (∀ name, getEnvironmentIndicator name = envIndicatorOfSpec name) ∧
      getEnvironmentIndicator "prod-test-runner" = "🟢 PROD" := by
  constructor
  · intro name
    simp only [getEnvironmentIndicator, envIndicatorOfSpec, List.any_cons, List.any_nil,
      Bool.or_false, Bool.or_assoc]
  · decide

/-- C5: substring matching is case-insensitive and total over the records
it searches: a record is in the match list iff it is in the searched dict
and the lowercased search term is a substring of the lowercased record
name — so all such matches are returned, e.g. the term "PROD" matches
every name containing "prod" in any case. -/
theorem substring_match_characterization (resources : CacheV) (query name : String)
    (r : RecordV) :
    (name, r) ∈ searchMatches resources query ↔
      ((name, r) ∈ resources ∧ strContains (lowerStr query) (lowerStr name) = true) := by
  simp [searchMatches, List.mem_filter]

/-- C2: for a canonical (lowercase) service tag `t` — `parse_search_query`
lowercases the tag it extracts and every `SERVICE_CONFIG` key is lowercase
— filtering by the enabled services and then restricting to `t` yields the
same visible record set as restricting to `t` alone when `t` is enabled,
and the empty set otherwise; accordingly, a `t`-scoped query through
`main` returns the matches of the tag-alone restriction when `t` is
enabled, and no matches at all, for every search term, when it is not. -/
theorem filter_enabled_then_tag_eq_tag_alone (enabled : List String) (cache : CacheV)
    (t query : String) (ht : lowerStr t = t) :
    (filterByService enabled cache (some t) =
      if enabled.contains t then filterByTag t cache else []) ∧
    (scopedQueryMatches enabled cache t query =
      if enabled.contains t then searchMatches (filterByTag t cache) query else []) := by
  have h1 : filterByService enabled cache (some t) =
      if enabled.contains t then filterByTag t cache else [] := by
    show filterByTag t (filterByEnabled enabled cache) = _
    unfold filterByTag filterByEnabled
    rw [List.filter_filter]
    by_cases hm : enabled.contains t = true
    · rw [if_pos hm]
      refine List.filter_congr ?_
      intro e _
      by_cases htag : (lowerStr (recService e.2) == lowerStr t) = true
      · have hsv : lowerStr (recService e.2) = t := by
          rw [beq_iff_eq.mp htag, ht]
        simp only [htag, Bool.true_and]
        rw [hsv]
        exact hm
      · rw [Bool.not_eq_true] at htag
        simp [htag]
    · rw [if_neg hm, List.filter_eq_nil_iff]
      intro e _ hb
      rw [Bool.and_eq_true] at hb
      have hsv : lowerStr (recService e.2) = t := by
        rw [beq_iff_eq.mp hb.1, ht]
      rw [hsv] at hb
      exact hm hb.2
  refine ⟨h1, ?_⟩
  unfold scopedQueryMatches
  by_cases hm : enabled.contains t = true
  · rw [if_pos hm, if_pos hm, h1, if_pos hm]
  · rw [if_neg hm, if_neg hm]

/-- Witness for C2 at a concrete input (tag "lambda" with only "s3"
enabled). -/
theorem filter_enabled_then_tag_eq_tag_alone_witness :
    (filterByService ["s3"] [("orders-prod", [("service", Prim.str "lambda")])] (some "lambda") =
      if (["s3"] : List String).contains "lambda" then
        filterByTag "lambda" [("orders-prod", [("service", Prim.str "lambda")])]
      else []) ∧
    (scopedQueryMatches ["s3"] [("orders-prod", [("service", Prim.str "lambda")])] "lambda" "orders" =
      if (["s3"] : List String).contains "lambda" then
        searchMatches (filterByTag "lambda" [("orders-prod", [("service", Prim.str "lambda")])]) "orders"
      else []) :=
  filter_enabled_then_tag_eq_tag_alone ["s3"] [("orders-prod", [("service", Prim.str "lambda")])]
    "lambda" "orders" (by decide)

set_option maxRecDepth 40000 in
/-- C1 (the code contradicts this claim): with `enabled_services = {"s3"}`,
no explicit service filter and search term "orders", the two lambda
records — records of a disabled service — are still returned as substring
matches and handed to the interactive matcher, and `prepare_resource_data`
still formats them into the matcher's line set: both functions run
`filter_by_service` (and with it the enabled-services intersection) only
when an explicit service filter is given. -/
theorem disabled_service_visible_without_filter :
    searchWithQuery ["s3"]
        [("orders-prod", [("service", Prim.str "lambda"), ("type", Prim.str "function"),
            ("url", Prim.str "https://x/orders-prod")]),
         ("orders-dev", [("service", Prim.str "lambda"), ("type", Prim.str "function"),
            ("url", Prim.str "https://x/orders-dev")])]
        none "orders" =
      .interactive
        [("orders-prod", [("service", Prim.str "lambda"), ("type", Prim.str "function"),
            ("url", Prim.str "https://x/orders-prod")]),
         ("orders-dev", [("service", Prim.str "lambda"), ("type", Prim.str "function"),
            ("url", Prim.str "https://x/orders-dev")])] ∧
    prepareResourceData ["s3"]
        [("orders-prod", [("service", Prim.str "lambda"), ("type", Prim.str "function"),
            ("url", Prim.str "https://x/orders-prod")]),
         ("orders-dev", [("service", Prim.str "lambda"), ("type", Prim.str "function"),
            ("url", Prim.str "https://x/orders-dev")])]
        none =
      ["orders-dev | λ Lambda | 🔵 DEV | https://x/orders-dev",
       "orders-prod | λ Lambda | 🟢 PROD | https://x/orders-prod"] ∧
    (["s3"] : List String).contains
      (lowerStr (recService [("service", Prim.str "lambda"), ("type", Prim.str "function"),
        ("url", Prim.str "https://x/orders-prod")])) = false := by
  decide

set_option maxRecDepth 40000 in
/-- C3 (the code contradicts the "never suggests a disabled name" part):
with `enabled_services = {"s3"}`, no explicit service filter and the
zero-match term "ordersx", the suggestion fallback still offers
"orders-prod", the name of a record of the disabled lambda service,
because without an explicit service filter the suggestion pool is the
unfiltered cache. -/
theorem suggestion_includes_disabled_service :
    searchWithQuery ["s3"]
        [("orders-prod", [("service", Prim.str "lambda"), ("type", Prim.str "function"),
            ("url", Prim.str "https://x/orders-prod")])]
        none "ordersx" = .noMatch ["orders-prod"] ∧
    (["s3"] : List String).contains
      (lowerStr (recService [("service", Prim.str "lambda"), ("type", Prim.str "function"),
        ("url", Prim.str "https://x/orders-prod")])) = false := by
  decide

/-- C10: when the substring search yields exactly one match whose `url`
field is missing or falsy, `search_with_query` reports the record by name
(`noUrl`): nothing is opened and no interactive matcher is spawned. -/
theorem single_match_without_url_not_opened (enabled : List String) (resources : CacheV)
    (serviceFilter : Option String) (query name : String) (r : RecordV)
    (hne : resources.isEmpty = false)
    (hm : searchMatches
        (match serviceFilter with
          | some f => filterByService enabled resources (some f)
          | none => resources) query = [(name, r)])
    (hurl : primTruthy (dget r "url" (.str "")) = false) :
    searchWithQuery enabled resources serviceFilter query = .noUrl name := by
  unfold searchWithQuery
  rw [hne]
  simp only [Bool.false_eq_true, if_false]
  rw [hm]
  simp [hurl]

/-- Witness for C10 at a concrete input (single match, no `url` field). -/
theorem single_match_without_url_not_opened_witness :
    searchWithQuery ["lambda"] [("solo", [("service", Prim.str "lambda")])] none "so" =
      .noUrl "solo" :=
  single_match_without_url_not_opened ["lambda"] [("solo", [("service", Prim.str "lambda")])]
    none "so" "solo" [("service", Prim.str "lambda")] (by decide) (by decide) (by decide)

theorem nodup_keysOf_nil : (keysOf ([] : List (String × α))).Nodup := by
  simp [keysOf]

theorem nodup_keysOf_fetchLambda (region : String)
    (resp : Except Unit (List (List LambdaFunction))) :
    (keysOf (fetchLambdaFunctions region resp)).Nodup := by
  cases resp with
  | error e => exact nodup_keysOf_nil
  | ok pages => exact nodup_keysOf_insertAll nodup_keysOf_nil _

theorem nodup_keysOf_fetchS3 (region : String) (resp : Except Unit (List S3Bucket)) :
    (keysOf (fetchS3Buckets region resp)).Nodup := by
  cases resp with
  | error e => exact nodup_keysOf_nil
  | ok buckets => exact nodup_keysOf_insertAll nodup_keysOf_nil _

theorem nodup_keysOf_fetchSqs (region : String) (resp : Except Unit (List String)) :
    (keysOf (fetchSqsQueues region resp)).Nodup := by
  cases resp with
  | error e => exact nodup_keysOf_nil
  | ok queueUrls => exact nodup_keysOf_insertAll nodup_keysOf_nil _

theorem nodup_keysOf_fetchKinesis (region : String)
    (resp : Except Unit (List (List KinesisStream))) :
    (keysOf (fetchKinesisStreams region resp)).Nodup := by
  cases resp with
  | error e => exact nodup_keysOf_nil
  | ok pages => exact nodup_keysOf_insertAll nodup_keysOf_nil _

theorem nodup_keysOf_fetchDynamo (region : String)
    (resp : Except Unit (List (List DynamoTable))) :
    (keysOf (fetchDynamodbTables region resp)).Nodup := by
  cases resp with
  | error e => exact nodup_keysOf_nil
  | ok pages => exact nodup_keysOf_insertAll nodup_keysOf_nil _

theorem nodup_keysOf_fetchRds (region : String) (resp : Except Unit RdsResp) :
    (keysOf (fetchRdsResources region resp)).Nodup := by
  cases resp with
  | error e => exact nodup_keysOf_nil
  | ok r =>
    obtain ⟨ip, cp⟩ := r
    cases ip with
    | error e' =>
      cases cp with
      | error e'' => exact nodup_keysOf_nil
      | ok pages => exact nodup_keysOf_insertAll nodup_keysOf_nil _
    | ok pages =>
      cases cp with
      | error e'' => exact nodup_keysOf_insertAll nodup_keysOf_nil _
      | ok pages' =>
        exact nodup_keysOf_insertAll (nodup_keysOf_insertAll nodup_keysOf_nil _) _

theorem nodup_keysOf_fetchApiGateway (region : String)
    (resp : Except Unit (List RestApi)) :
    (keysOf (fetchApiGatewayApis region resp)).Nodup := by
  cases resp with
  | error e => exact nodup_keysOf_nil
  | ok apis => exact nodup_keysOf_insertAll nodup_keysOf_nil _

theorem mem_of_insertAll_nil {l : List (String × α)} {e : String × α}
    (h : e ∈ insertAll [] l) : e ∈ l := by
  rcases mem_insertAll h with h' | h'
  · cases h'
  · exact h'

theorem sqsEscape_no_slash (w : List Char) (h : '/' ∉ w) : sqsEscape w = w := by
  induction w using sqsEscape.induct with
  | case1 rest ih => exact absurd (by simp) h
  | case2 c rest hno ih =>
    rw [sqsEscape.eq_2 c rest hno, ih (fun hm => h (List.mem_cons_of_mem _ hm))]
  | case3 => rfl

theorem slash_not_mem_lastSegment (u : List Char) : '/' ∉ lastSegment u := by
  intro h
  have h' := List.mem_takeWhile_imp (List.mem_reverse.mp h)
  simp at h'

theorem lastSegment_append_of_mem {a b : List Char} (h : '/' ∈ b) :
    lastSegment (a ++ b) = lastSegment b := by
  unfold lastSegment
  rw [List.reverse_append, List.takeWhile_append, if_neg ?_]
  intro hlen
  have hpref := List.takeWhile_prefix (l := b.reverse) (p := fun c => decide (c ≠ '/'))
  have heq := hpref.eq_of_length hlen
  have hp := List.takeWhile_eq_self_iff.mp heq '/' (List.mem_reverse.mpr h)
  simp at hp

theorem lastSegment_no_slash {u : List Char} (h : '/' ∉ u) : lastSegment u = u := by
  unfold lastSegment
  rw [List.takeWhile_eq_self_iff.mpr ?_, List.reverse_reverse]
  intro x hx
  simp only [decide_eq_true_eq]
  intro hx'
  exact h (hx' ▸ List.mem_reverse.mp hx)

theorem lastSegment_slash_cons {rest : List Char} (hm : '/' ∉ rest) :
    lastSegment ('/' :: rest) = rest := by
  have hall : List.takeWhile (fun c => decide (c ≠ '/')) rest.reverse = rest.reverse := by
    refine List.takeWhile_eq_self_iff.mpr ?_
    intro x hx
    simp only [decide_eq_true_eq]
    intro hx'
    exact hm (hx' ▸ List.mem_reverse.mp hx)
  unfold lastSegment
  rw [List.reverse_cons, List.takeWhile_append, if_pos (by rw [hall])]
  simp

/-- The queue name (after the last `'/'` of the queue URL) survives the
`'://'` → `'%3A//'` replacement as a suffix: a replacement can only touch
characters at or before that last slash, and every replacement ends in
`'//'`. -/
theorem lastSegment_suffix_sqsEscape (u : List Char) : lastSegment u <:+ sqsEscape u := by
  induction u using sqsEscape.induct with
  | case1 rest ih =>
    by_cases hm : '/' ∈ rest
    · have hseg : lastSegment (':' :: '/' :: '/' :: rest) = lastSegment rest :=
        lastSegment_append_of_mem (a := [':', '/', '/']) hm
      rw [hseg, sqsEscape.eq_1]
      exact ih.trans ⟨['%', '3', 'A', '/', '/'], rfl⟩
    · have hseg : lastSegment (':' :: '/' :: '/' :: rest) = rest := by
        have h1 : lastSegment (':' :: '/' :: '/' :: rest) = lastSegment ('/' :: rest) :=
          lastSegment_append_of_mem (a := [':', '/']) (by simp)
        rw [h1, lastSegment_slash_cons hm]
      rw [hseg, sqsEscape.eq_1, sqsEscape_no_slash rest hm]
      exact ⟨['%', '3', 'A', '/', '/'], rfl⟩
  | case2 c rest hno ih =>
    rw [sqsEscape.eq_2 c rest hno]
    by_cases hm : '/' ∈ rest
    · have hseg : lastSegment (c :: rest) = lastSegment rest :=
        lastSegment_append_of_mem (a := [c]) hm
      rw [hseg]
      exact ih.trans ⟨[c], rfl⟩
    · by_cases hc : c = '/'
      · subst hc
        rw [lastSegment_slash_cons hm, sqsEscape_no_slash rest hm]
        exact ⟨['/'], rfl⟩
      · have hnu : '/' ∉ c :: rest := by
          simp only [List.mem_cons, not_or]
          exact ⟨fun h => hc h.symm, hm⟩
        rw [lastSegment_no_slash hnu, sqsEscape_no_slash rest hm]
  | case3 => exact List.suffix_refl _

theorem goodRecord_fetchLambda (region : String)
    (resp : Except Unit (List (List LambdaFunction))) :
    ∀ n r, (n, r) ∈ fetchLambdaFunctions region resp → GoodRecord region n r := by
  intro n r hmem
  cases resp with
  | error e => cases hmem
  | ok pages =>
    obtain ⟨f, hf, heq⟩ := List.mem_map.mp (mem_of_insertAll_nil hmem)
    simp only [Prod.mk.injEq] at heq
    obtain ⟨rfl, rfl⟩ := heq
    refine ⟨⟨"lambda", rfl, by decide⟩, ⟨"function", rfl, by decide⟩,
      ⟨lambdaUrl region f.functionName, rfl, ?_, ?_⟩⟩
    · exact strContains_of_eq "https://"
        (".console.aws.amazon.com/lambda/home?region=" ++ region ++ "#/functions/" ++
          f.functionName ++ "?tab=configuration")
        (by simp [lambdaUrl, String.append_assoc])
    · exact strContains_of_eq
        ("https://" ++ region ++ ".console.aws.amazon.com/lambda/home?region=" ++ region ++
          "#/functions/") "?tab=configuration"
        (by simp [lambdaUrl, String.append_assoc])

theorem goodRecord_fetchS3 (region : String) (resp : Except Unit (List S3Bucket)) :
    ∀ n r, (n, r) ∈ fetchS3Buckets region resp → GoodRecord region n r := by
  intro n r hmem
  cases resp with
  | error e => cases hmem
  | ok buckets =>
    obtain ⟨b, hb, heq⟩ := List.mem_map.mp (mem_of_insertAll_nil hmem)
    simp only [Prod.mk.injEq] at heq
    obtain ⟨rfl, rfl⟩ := heq
    refine ⟨⟨"s3", rfl, by decide⟩, ⟨"bucket", rfl, by decide⟩,
      ⟨s3Url region b.name, rfl, ?_, ?_⟩⟩
    · exact strContains_of_eq_suffix
        ("https://s3.console.aws.amazon.com/s3/buckets/" ++ b.name ++ "?region=")
        (by simp [s3Url, String.append_assoc])
    · exact strContains_of_eq "https://s3.console.aws.amazon.com/s3/buckets/"
        ("?region=" ++ region) (by simp [s3Url, String.append_assoc])

theorem goodRecord_fetchSqs (region : String) (resp : Except Unit (List String)) :
    ∀ n r, (n, r) ∈ fetchSqsQueues region resp → GoodRecord region n r := by
  intro n r hmem
  cases resp with
  | error e => cases hmem
  | ok queueUrls =>
    obtain ⟨u, hu, heq⟩ := List.mem_map.mp (mem_of_insertAll_nil hmem)
    simp only [Prod.mk.injEq] at heq
    obtain ⟨rfl, rfl⟩ := heq
    refine ⟨⟨"sqs", rfl, by decide⟩, ⟨"queue", rfl, by decide⟩,
      ⟨sqsUrl region u, rfl, ?_, ?_⟩⟩
    · exact strContains_of_eq "https://"
        (".console.aws.amazon.com/sqs/v2/home?region=" ++ region ++ "#/queues/" ++
          String.mk (sqsEscape u.data))
        (by simp [sqsUrl, String.append_assoc])
    · obtain ⟨t, ht⟩ := lastSegment_suffix_sqsEscape u.data
      refine subList_iff_infix.mpr
        ⟨("https://" ++ region ++ ".console.aws.amazon.com/sqs/v2/home?region=" ++ region ++
            "#/queues/").data ++ t, [], ?_⟩
      simp [sqsUrl, String.data_append, List.append_assoc, ht]

theorem goodRecord_fetchKinesis (region : String)
    (resp : Except Unit (List (List KinesisStream))) :
    ∀ n r, (n, r) ∈ fetchKinesisStreams region resp → GoodRecord region n r := by
  intro n r hmem
  cases resp with
  | error e => cases hmem
  | ok pages =>
    obtain ⟨s, hs, hsome⟩ := List.mem_filterMap.mp (mem_of_insertAll_nil hmem)
    rcases hdet : s.details with e | info
    · rw [hdet] at hsome
      cases hsome
    · rw [hdet] at hsome
      simp only [Option.some.injEq, Prod.mk.injEq] at hsome
      obtain ⟨rfl, rfl⟩ := hsome
      refine ⟨⟨"kinesis", rfl, by decide⟩, ⟨"stream", rfl, by decide⟩,
        ⟨kinesisUrl region s.streamName, rfl, ?_, ?_⟩⟩
      · exact strContains_of_eq "https://"
          (".console.aws.amazon.com/kinesis/home?region=" ++ region ++
            "#/streams/details/" ++ s.streamName ++ "/monitoring")
          (by simp [kinesisUrl, String.append_assoc])
      · exact strContains_of_eq
          ("https://" ++ region ++ ".console.aws.amazon.com/kinesis/home?region=" ++ region ++
            "#/streams/details/") "/monitoring"
          (by simp [kinesisUrl, String.append_assoc])

theorem goodRecord_fetchDynamo (region : String)
    (resp : Except Unit (List (List DynamoTable))) :
    ∀ n r, (n, r) ∈ fetchDynamodbTables region resp → GoodRecord region n r := by
  intro n r hmem
  cases resp with
  | error e => cases hmem
  | ok pages =>
    obtain ⟨t, ht, hsome⟩ := List.mem_filterMap.mp (mem_of_insertAll_nil hmem)
    rcases hdet : t.details with e | info
    · rw [hdet] at hsome
      cases hsome
    · rw [hdet] at hsome
      simp only [Option.some.injEq, Prod.mk.injEq] at hsome
      obtain ⟨rfl, rfl⟩ := hsome
      refine ⟨⟨"dynamodb", rfl, by decide⟩, ⟨"table", rfl, by decide⟩,
        ⟨dynamoUrl region t.tableName, rfl, ?_, ?_⟩⟩
      · exact strContains_of_eq "https://"
          (".console.aws.amazon.com/dynamodbv2/home?region=" ++ region ++
            "#table?name=" ++ t.tableName)
          (by simp [dynamoUrl, String.append_assoc])
      · exact strContains_of_eq_suffix
          ("https://" ++ region ++ ".console.aws.amazon.com/dynamodbv2/home?region=" ++
            region ++ "#table?name=")
          (by simp [dynamoUrl, String.append_assoc])

theorem goodRecord_rdsInstance (region : String) (i : DbInstance) :
    GoodRecord region i.dbInstanceIdentifier (rdsInstanceRecord region i) := by
  refine ⟨⟨"rds", rfl, by decide⟩, ⟨"instance", rfl, by decide⟩,
    ⟨rdsUrl region i.dbInstanceIdentifier false, rfl, ?_, ?_⟩⟩
  · exact strContains_of_eq "https://"
      (".console.aws.amazon.com/rds/home?region=" ++ region ++ "#database:id=" ++
        i.dbInstanceIdentifier ++ ";is-cluster=false")
      (by simp [rdsUrl, String.append_assoc])
  · exact strContains_of_eq
      ("https://" ++ region ++ ".console.aws.amazon.com/rds/home?region=" ++ region ++
        "#database:id=") ";is-cluster=false"
      (by simp [rdsUrl, String.append_assoc])

theorem goodRecord_rdsCluster (region : String) (c : DbCluster) :
    GoodRecord region c.dbClusterIdentifier (rdsClusterRecord region c) := by
  refine ⟨⟨"rds", rfl, by decide⟩, ⟨"cluster", rfl, by decide⟩,
    ⟨rdsUrl region c.dbClusterIdentifier true, rfl, ?_, ?_⟩⟩
  · exact strContains_of_eq "https://"
      (".console.aws.amazon.com/rds/home?region=" ++ region ++ "#database:id=" ++
        c.dbClusterIdentifier ++ ";is-cluster=true")
      (by simp [rdsUrl, String.append_assoc])
  · exact strContains_of_eq
      ("https://" ++ region ++ ".console.aws.amazon.com/rds/home?region=" ++ region ++
        "#database:id=") ";is-cluster=true"
      (by simp [rdsUrl, String.append_assoc])

theorem goodRecord_fetchRds (region : String) (resp : Except Unit RdsResp) :
    ∀ n r, (n, r) ∈ fetchRdsResources region resp → GoodRecord region n r := by
  intro n r hmem
  cases resp with
  | error e => cases hmem
  | ok resp' =>
    obtain ⟨ip, cp⟩ := resp'
    have hinst : ∀ m : String × RecordV,
        (m ∈ match ip with
          | Except.error _ => ([] : CacheV)
          | Except.ok pages =>
            insertAll []
              (pages.flatten.map
                (fun (i : DbInstance) => (i.dbInstanceIdentifier, rdsInstanceRecord region i)))) →
        GoodRecord region m.1 m.2 := by
      intro m hm
      cases ip with
      | error e => cases hm
      | ok pages =>
        obtain ⟨i, hi, heq⟩ := List.mem_map.mp (mem_of_insertAll_nil hm)
        rw [← heq]
        exact goodRecord_rdsInstance region i
    cases cp with
    | error e => exact hinst (n, r) hmem
    | ok pages =>
      rcases mem_insertAll hmem with h' | h'
      · exact hinst (n, r) h'
      · obtain ⟨c, hc, heq⟩ := List.mem_map.mp h'
        simp only [Prod.mk.injEq] at heq
        obtain ⟨rfl, rfl⟩ := heq
        exact goodRecord_rdsCluster region c

theorem goodRecord_fetchApiGateway (region : String) (resp : Except Unit (List RestApi)) :
    ∀ n r, (n, r) ∈ fetchApiGatewayApis region resp →
      ∃ i, dlookup r "api_id" = some (.str i) ∧ GoodRecord region i r := by
  intro n r hmem
  cases resp with
  | error e => cases hmem
  | ok apis =>
    obtain ⟨a, ha, heq⟩ := List.mem_map.mp (mem_of_insertAll_nil hmem)
    simp only [Prod.mk.injEq] at heq
    obtain ⟨rfl, rfl⟩ := heq
    refine ⟨a.id, rfl, ⟨"apigateway", rfl, by decide⟩, ⟨"rest_api", rfl, by decide⟩,
      ⟨apiGatewayUrl region a.id, rfl, ?_, ?_⟩⟩
    · exact strContains_of_eq "https://"
        (".console.aws.amazon.com/apigateway/home?region=" ++ region ++ "#/apis/" ++ a.id)
        (by simp [apiGatewayUrl, String.append_assoc])
    · exact strContains_of_eq_suffix
        ("https://" ++ region ++ ".console.aws.amazon.com/apigateway/home?region=" ++
          region ++ "#/apis/")
        (by simp [apiGatewayUrl, String.append_assoc])

/-- C6: every record any fetcher produces from a valid enumeration
response carries a non-empty service tag, a non-empty resource type and a
console URL containing the configured region and the record's identifier
— the dict key for six services, and for API Gateway the API id (stored
in the record's `api_id` field), since its URL interpolates the id, not
the name.  Missing optional upstream fields degrade to the placeholders
"unknown" / "" in the produced record instead of aborting: shown
concretely for a Lambda function with no `Runtime` and no `LastModified`. -/
theorem collector_record_invariants (region : String) :
    (∀ resp n r, (n, r) ∈ fetchLambdaFunctions region resp → GoodRecord region n r) ∧
    (∀ resp n r, (n, r) ∈ fetchS3Buckets region resp → GoodRecord region n r) ∧
    (∀ resp n r, (n, r) ∈ fetchSqsQueues region resp → GoodRecord region n r) ∧
    (∀ resp n r, (n, r) ∈ fetchKinesisStreams region resp → GoodRecord region n r) ∧
    (∀ resp n r, (n, r) ∈ fetchDynamodbTables region resp → GoodRecord region n r) ∧
    (∀ resp n r, (n, r) ∈ fetchRdsResources region resp → GoodRecord region n r) ∧
    (∀ resp n r, (n, r) ∈ fetchApiGatewayApis region resp →
      ∃ i, dlookup r "api_id" = some (.str i) ∧ GoodRecord region i r) ∧
    fetchLambdaFunctions "us-east-1" (.ok [[⟨"fn1", "arn:fn1", none, none⟩]]) =
      [("fn1", [("service", .str "lambda"), ("type", .str "function"), ("arn", .str "arn:fn1"),
        ("url", .str (lambdaUrl "us-east-1" "fn1")), ("runtime", .str "unknown"),
        ("last_modified", .str ""), ("region", .str "us-east-1")])] :=
  ⟨goodRecord_fetchLambda region, goodRecord_fetchS3 region, goodRecord_fetchSqs region,
   goodRecord_fetchKinesis region, goodRecord_fetchDynamo region, goodRecord_fetchRds region,
   goodRecord_fetchApiGateway region, rfl⟩

/-- Witness for C6: the invariant evaluated on a concrete Lambda record. -/
theorem collector_record_invariants_witness :
    GoodRecord "us-east-1" "fn1"
      [("service", Prim.str "lambda"), ("type", Prim.str "function"),
       ("arn", Prim.str "arn:fn1"), ("url", Prim.str (lambdaUrl "us-east-1" "fn1")),
       ("runtime", Prim.str "unknown"), ("last_modified", Prim.str ""),
       ("region", Prim.str "us-east-1")] :=
  (collector_record_invariants "us-east-1").1 (.ok [[⟨"fn1", "arn:fn1", none, none⟩]]) "fn1"
    [("service", Prim.str "lambda"), ("type", Prim.str "function"),
     ("arn", Prim.str "arn:fn1"), ("url", Prim.str (lambdaUrl "us-east-1" "fn1")),
     ("runtime", Prim.str "unknown"), ("last_modified", Prim.str ""),
     ("region", Prim.str "us-east-1")] (by decide)

theorem loadPairs_eq_self {l : List (String × JValue)} (hl : (keysOf l).Nodup) :
    loadPairs l = l := by
  rw [loadPairs, insertAll_eq_append hl (by simp [keysOf])]
  simp

theorem keysOf_map_enc {β γ : Type} {l : List (String × β)} {f : String × β → γ} :
    keysOf (l.map (fun e => (e.1, f e))) = keysOf l := by
  simp [keysOf, List.map_map, Function.comp]

theorem mapOpt_cons_some {f : α → Option β} {a : α} {b : β} {t : List α} {bs : List β}
    (ha : f a = some b) (ht : mapOpt f t = some bs) : mapOpt f (a :: t) = some (b :: bs) := by
  simp [mapOpt, ha, ht]

theorem mapOpt_jToPrim_toJ (r : RecordV) :
    mapOpt (fun e => (jToPrim e.2).map (fun p => (e.1, p)))
      (r.map (fun e => (e.1, Prim.toJ e.2))) = some r := by
  induction r with
  | nil => rfl
  | cons e t ih =>
    obtain ⟨k, p⟩ := e
    rw [List.map_cons]
    refine mapOpt_cons_some ?_ ih
    cases p <;> rfl

theorem decodeRec_encodeRec {r : RecordV} (h : (keysOf r).Nodup) :
    decodeRecJ (encodeRecJ r) = some r := by
  show mapOpt (fun e => (jToPrim e.2).map (fun p => (e.1, p)))
      (loadPairs (r.map (fun e => (e.1, Prim.toJ e.2)))) = some r
  rw [loadPairs_eq_self (by rw [keysOf_map_enc]; exact h), mapOpt_jToPrim_toJ]

theorem mapOpt_decodeRec_encodeRec (c : CacheV) (h2 : ∀ e ∈ c, (keysOf e.2).Nodup) :
    mapOpt (fun e => (decodeRecJ e.2).map (fun r => (e.1, r)))
      (c.map (fun e => (e.1, encodeRecJ e.2))) = some c := by
  induction c with
  | nil => rfl
  | cons e t ih =>
    rw [List.map_cons]
    refine mapOpt_cons_some ?_ (ih (fun x hx => h2 x (List.mem_cons_of_mem _ hx)))
    rw [show decodeRecJ (e.1, encodeRecJ e.2).2 = some e.2 from
      decodeRec_encodeRec (h2 e (List.mem_cons_self _ _))]
    rfl

/-- AST-level round trip of the cache file format for well-keyed caches:
re-loading the serialized document reproduces the same mapping. -/
theorem decodeCache_encodeCache {c : CacheV} (h1 : (keysOf c).Nodup)
    (h2 : ∀ e ∈ c, (keysOf e.2).Nodup) :
    decodeCacheJ (encodeCacheJ c) = some c := by
  show mapOpt (fun e => (decodeRecJ e.2).map (fun r => (e.1, r)))
      (loadPairs (c.map (fun e => (e.1, encodeRecJ e.2)))) = some c
  rw [loadPairs_eq_self (by rw [keysOf_map_enc]; exact h1)]
  exact mapOpt_decodeRec_encodeRec c h2

theorem recKeys_fetchLambda (region : String) (resp : Except Unit (List (List LambdaFunction))) :
    ∀ e ∈ fetchLambdaFunctions region resp, (keysOf e.2).Nodup := by
  intro e he
  cases resp with
  | error e' => cases he
  | ok pages =>
    obtain ⟨f, hf, heq⟩ := List.mem_map.mp (mem_of_insertAll_nil he)
    rw [← heq]
    show (keysOf (lambdaRecord region f)).Nodup
    rw [show keysOf (lambdaRecord region f) =
      ["service", "type", "arn", "url", "runtime", "last_modified", "region"] from rfl]
    decide

theorem recKeys_fetchS3 (region : String) (resp : Except Unit (List S3Bucket)) :
    ∀ e ∈ fetchS3Buckets region resp, (keysOf e.2).Nodup := by
  intro e he
  cases resp with
  | error e' => cases he
  | ok buckets =>
    obtain ⟨b, hb, heq⟩ := List.mem_map.mp (mem_of_insertAll_nil he)
    rw [← heq]
    show (keysOf (s3Record region b)).Nodup
    rw [show keysOf (s3Record region b) =
      ["service", "type", "url", "creation_date", "region"] from rfl]
    decide

theorem recKeys_fetchSqs (region : String) (resp : Except Unit (List String)) :
    ∀ e ∈ fetchSqsQueues region resp, (keysOf e.2).Nodup := by
  intro e he
  cases resp with
  | error e' => cases he
  | ok queueUrls =>
    obtain ⟨u, hu, heq⟩ := List.mem_map.mp (mem_of_insertAll_nil he)
    rw [← heq]
    show (keysOf (sqsRecord region u)).Nodup
    rw [show keysOf (sqsRecord region u) =
      ["service", "type", "url", "queue_url", "region"] from rfl]
    decide

theorem recKeys_fetchKinesis (region : String)
    (resp : Except Unit (List (List KinesisStream))) :
    ∀ e ∈ fetchKinesisStreams region resp, (keysOf e.2).Nodup := by
  intro e he
  cases resp with
  | error e' => cases he
  | ok pages =>
    obtain ⟨s, hs, hsome⟩ := List.mem_filterMap.mp (mem_of_insertAll_nil he)
    rcases hdet : s.details with e' | info
    · rw [hdet] at hsome
      cases hsome
    · rw [hdet] at hsome
      simp only [Option.some.injEq] at hsome
      rw [← hsome]
      show (keysOf (kinesisRecord region s.streamName info)).Nodup
      rw [show keysOf (kinesisRecord region s.streamName info) =
        ["service", "type", "url", "arn", "status", "shard_count", "region"] from rfl]
      decide

theorem recKeys_fetchDynamo (region : String)
    (resp : Except Unit (List (List DynamoTable))) :
    ∀ e ∈ fetchDynamodbTables region resp, (keysOf e.2).Nodup := by
  intro e he
  cases resp with
  | error e' => cases he
  | ok pages =>
    obtain ⟨t, ht, hsome⟩ := List.mem_filterMap.mp (mem_of_insertAll_nil he)
    rcases hdet : t.details with e' | info
    · rw [hdet] at hsome
      cases hsome
    · rw [hdet] at hsome
      simp only [Option.some.injEq] at hsome
      rw [← hsome]
      show (keysOf (dynamoRecord region t.tableName info)).Nodup
      rw [show keysOf (dynamoRecord region t.tableName info) =
        ["service", "type", "url", "arn", "status", "item_count", "region"] from rfl]
      decide

theorem recKeys_fetchRds (region : String) (resp : Except Unit RdsResp) :
    ∀ e ∈ fetchRdsResources region resp, (keysOf e.2).Nodup := by
  intro e he
  cases resp with
  | error e' => cases he
  | ok resp' =>
    obtain ⟨ip, cp⟩ := resp'
    have hinst : ∀ m : String × RecordV,
        (m ∈ match ip with
          | Except.error _ => ([] : CacheV)
          | Except.ok pages =>
            insertAll []
              (pages.flatten.map
                (fun (i : DbInstance) => (i.dbInstanceIdentifier, rdsInstanceRecord region i)))) →
        (keysOf m.2).Nodup := by
      intro m hm
      cases ip with
      | error e' => cases hm
      | ok pages =>
        obtain ⟨i, hi, heq⟩ := List.mem_map.mp (mem_of_insertAll_nil hm)
        rw [← heq]
        show (keysOf (rdsInstanceRecord region i)).Nodup
        rw [show keysOf (rdsInstanceRecord region i) =
          ["service", "type", "url", "arn", "engine", "status", "region"] from rfl]
        decide
    cases cp with
    | error e' => exact hinst e he
    | ok pages =>
      rcases mem_insertAll he with h' | h'
      · exact hinst e h'
      · obtain ⟨c, hc, heq⟩ := List.mem_map.mp h'
        rw [← heq]
        show (keysOf (rdsClusterRecord region c)).Nodup
        rw [show keysOf (rdsClusterRecord region c) =
          ["service", "type", "url", "arn", "engine", "status", "region"] from rfl]
        decide

theorem recKeys_fetchApiGateway (region : String) (resp : Except Unit (List RestApi)) :
    ∀ e ∈ fetchApiGatewayApis region resp, (keysOf e.2).Nodup := by
  intro e he
  cases resp with
  | error e' => cases he
  | ok apis =>
    obtain ⟨a, ha, heq⟩ := List.mem_map.mp (mem_of_insertAll_nil he)
    rw [← heq]
    show (keysOf (apiGatewayRecord region a)).Nodup
    rw [show keysOf (apiGatewayRecord region a) =
      ["service", "type", "url", "api_id", "description", "created_date", "region"] from rfl]
    decide

theorem recKeys_collect (region : String) (env : CollectResponses) :
    ∀ e ∈ collectAllResources region env, (keysOf e.2).Nodup := by
  intro e he
  unfold collectAllResources at he
  rcases mem_insertAll he with he | he
  · rcases mem_insertAll he with he | he
    · rcases mem_insertAll he with he | he
      · rcases mem_insertAll he with he | he
        · rcases mem_insertAll he with he | he
          · rcases mem_insertAll he with he | he
            · rcases mem_insertAll he with he | he
              · cases he
              · exact recKeys_fetchLambda region env.lambdaResp e he
            · exact recKeys_fetchS3 region env.s3Resp e he
          · exact recKeys_fetchSqs region env.sqsResp e he
        · exact recKeys_fetchKinesis region env.kinesisResp e he
      · exact recKeys_fetchDynamo region env.dynamoResp e he
    · exact recKeys_fetchRds region env.rdsResp e he
  · exact recKeys_fetchApiGateway region env.apiGatewayResp e he

theorem nodup_keysOf_collect (region : String) (env : CollectResponses) :
    (keysOf (collectAllResources region env)).Nodup := by
  unfold collectAllResources
  exact nodup_keysOf_insertAll
    (nodup_keysOf_insertAll
      (nodup_keysOf_insertAll
        (nodup_keysOf_insertAll
          (nodup_keysOf_insertAll
            (nodup_keysOf_insertAll (nodup_keysOf_insertAll nodup_keysOf_nil _) _) _) _) _) _) _

/-- C7: every cache the collector produces survives the serialize/reload
round trip through the JSON cache document unchanged: the same key set
with the same field values for every key. -/
theorem collector_cache_roundtrip (region : String) (env : CollectResponses) :
    decodeCacheJ (encodeCacheJ (collectAllResources region env)) =
      some (collectAllResources region env) :=
  decodeCache_encodeCache (nodup_keysOf_collect region env) (recKeys_collect region env)

/-- C8: a session/credential-resolution failure or a cache-write failure
makes the collector exit 1, and those are the only failure exits: per-
service enumeration failures never reach the exit code, which is 0
whenever session, credentials and write succeed.  A failing service
contributes zero records (each fetcher maps `ClientError` to the empty
dict) and the run continues: the final cache with a failed service equals
the cache with that service enumerating nothing. -/
theorem collector_failure_semantics :
    (∀ env : RunEnv, mainPopulateExit env =
        if env.sessionOk && env.credsOk && env.writeOk then 0 else 1) ∧
    (∀ region : String,
      fetchLambdaFunctions region (.error ()) = [] ∧
      fetchS3Buckets region (.error ()) = [] ∧
      fetchSqsQueues region (.error ()) = [] ∧
      fetchKinesisStreams region (.error ()) = [] ∧
      fetchDynamodbTables region (.error ()) = [] ∧
      fetchRdsResources region (.error ()) = [] ∧
      fetchApiGatewayApis region (.error ()) = []) ∧
    (∀ (region : String) (env : CollectResponses),
      collectAllResources region { env with lambdaResp := .error () } =
        collectAllResources region { env with lambdaResp := .ok [] } ∧
      collectAllResources region { env with s3Resp := .error () } =
        collectAllResources region { env with s3Resp := .ok [] } ∧
      collectAllResources region { env with sqsResp := .error () } =
        collectAllResources region { env with sqsResp := .ok [] } ∧
      collectAllResources region { env with kinesisResp := .error () } =
        collectAllResources region { env with kinesisResp := .ok [] } ∧
      collectAllResources region { env with dynamoResp := .error () } =
        collectAllResources region { env with dynamoResp := .ok [] } ∧
      collectAllResources region { env with rdsResp := .error () } =
        collectAllResources region { env with rdsResp := .ok ⟨.ok [], .ok []⟩ } ∧
      collectAllResources region { env with apiGatewayResp := .error () } =
        collectAllResources region { env with apiGatewayResp := .ok [] }) := by
  refine ⟨?_, ?_, ?_⟩
  · intro env
    obtain ⟨s, c, r, w⟩ := env
    cases s <;> cases c <;> cases w <;> rfl
  · intro region
    exact ⟨rfl, rfl, rfl, rfl, rfl, rfl, rfl⟩
  · intro region env
    exact ⟨rfl, rfl, rfl, rfl, rfl, rfl, rfl⟩

/-- C9: when several services produce records with the same name in one
run, the written cache keeps exactly the record from the service fetched
latest in the fixed order lambda, s3, sqs, kinesis, dynamodb, rds,
apigateway: looking a name up in the merged cache gives the `lastHit`
over the per-service fetch results in that order, so every earlier
service's record for that name is discarded. -/
theorem cache_last_service_wins (region : String) (env : CollectResponses) (k : String) :
    dlookup (collectAllResources region env) k =
      lastHit [fetchLambdaFunctions region env.lambdaResp,
               fetchS3Buckets region env.s3Resp,
               fetchSqsQueues region env.sqsResp,
               fetchKinesisStreams region env.kinesisResp,
               fetchDynamodbTables region env.dynamoResp,
               fetchRdsResources region env.rdsResp,
               fetchApiGatewayApis region env.apiGatewayResp] k := by
  unfold collectAllResources
  rw [dlookup_insertAll _ (nodup_keysOf_fetchApiGateway region env.apiGatewayResp) k,
    dlookup_insertAll _ (nodup_keysOf_fetchRds region env.rdsResp) k,
    dlookup_insertAll _ (nodup_keysOf_fetchDynamo region env.dynamoResp) k,
    dlookup_insertAll _ (nodup_keysOf_fetchKinesis region env.kinesisResp) k,
    dlookup_insertAll _ (nodup_keysOf_fetchSqs region env.sqsResp) k,
    dlookup_insertAll _ (nodup_keysOf_fetchS3 region env.s3Resp) k,
    dlookup_insertAll _ (nodup_keysOf_fetchLambda region env.lambdaResp) k]
  simp only [lastHit, List.foldl]
  rfl

end Awsf
